import Mathlib

/-!
Verification development for the DIM-Creator repository (files
`extraction_utils.py`, `packaging_utils.py`).

Shallow embedding conventions:
- A filesystem path is a list of name segments (`List String`).  An
  absolute path is represented by the segment list after its anchor; the
  anchor itself is irrelevant to every property proved here.
- `os.path.normpath` is embedded as the purely lexical `normPath` below
  (it resolves `.`/`..`/empty segments exactly as CPython does for
  relative paths).
- `os.path.commonpath([a, b]) == a` for two absolute paths is the
  statement that `a`'s segments are a prefix of `b`'s, which is how the
  guard appears in the code; it is embedded as `List.IsPrefix`.
- Directory trees are the inductive `FSTree`; `os.walk` enumerations are
  derived from it.
- The Qt signals emitted by `ContentExtractionWorker` are embedded as an
  explicit event trace (`Event`).
-/

namespace DIMCreator

/-- One lexical normalization step of `os.path.normpath`, processing the
next segment against the already-normalized (reversed) accumulator. -/
def normStep (acc : List String) (seg : String) : List String :=
  if seg = "." ∨ seg = "" then acc
  else if seg = ".." then
    match acc with
    | [] => [".."]
    | a :: rest => if a = ".." then seg :: a :: rest else rest
  else seg :: acc

/-- Embedding of `os.path.normpath` on a relative path given as segments:
drops `.` and empty segments, cancels `..` against a preceding real
segment, and keeps leading `..` segments. -/
def normPath (p : List String) : List String :=
  (p.foldl normStep []).reverse

/-- Embedding of `_safe_join` from
`ContentExtractionWorker.extractRelevantContent` (extraction_utils.py,
lines 210-216): normalize the relative path, join it under `base`, and
require the result to stay inside `base` (the `os.path.commonpath` test);
`none` models the raised `ValueError`. -/
def safeJoin (base rel : List String) : Option (List String) :=
  let dst := normPath (base ++ normPath rel)
  if base <+: dst then some dst else none

/-- Render a segment path with forward slashes (used only in messages and
manifest entries). -/
def joinPath (p : List String) : String :=
  String.intercalate "/" p

/- ## String helpers for `_build_zip_name` (packaging_utils.py 221-230) -/

/-- The character class `[A-Za-z0-9]` of the prefix-cleaning regex. -/
def isAlnumChar (c : Char) : Bool :=
  c.isAlpha || c.isDigit

/-- The character class `[A-Za-z0-9._-]` of the name-sanitizing regex. -/
def goodChar (c : Char) : Bool :=
  c.isAlpha || c.isDigit || c = '.' || c = '_' || c = '-'

/-- Embedding of `re.sub(r'[^A-Za-z0-9]+', '', s).upper()`: drop every
character outside `[A-Za-z0-9]`, then upper-case the remainder. -/
def upperAlnumOnly (s : String) : String :=
  String.mk ((s.data.filter isAlnumChar).map Char.toUpper)

/-- Embedding of `re.sub(r'[^A-Za-z0-9._-]+', '_', s)`: each maximal run
of characters outside `[A-Za-z0-9._-]` becomes a single underscore.  The
flag records whether the previous character was part of such a run. -/
def subBadRunsAux : Bool → List Char → List Char
  | _, [] => []
  | inBad, c :: cs =>
    if goodChar c then c :: subBadRunsAux false cs
    else if inBad then subBadRunsAux true cs
    else '_' :: subBadRunsAux true cs

/-- `re.sub(r'[^A-Za-z0-9._-]+', '_', s)` on a character list. -/
def subBadRuns (l : List Char) : List Char :=
  subBadRunsAux false l

/-- Embedding of Python's `str.strip('_')` on a character list. -/
def stripUnders (l : List Char) : List Char :=
  ((l.dropWhile (· = '_')).reverse.dropWhile (· = '_')).reverse

/-- Embedding of the full name sanitization in `_build_zip_name`:
`re.sub(r'[^A-Za-z0-9._-]+', '_', name).strip('_')`. -/
def sanitizeName (s : String) : String :=
  String.mk (stripUnders (subBadRuns s.data))

/-- Embedding of Python `int(s)` on a string: optional single sign
followed by a nonempty digit run (whitespace/underscore tolerance of
CPython's parser is not exercised by this code and is elided). -/
def digitsVal (ds : List Char) : Option Nat :=
  if ds.isEmpty then none
  else if ds.all Char.isDigit then
    some (ds.foldl (fun a c => a * 10 + (c.toNat - 48)) 0)
  else none

/-- Python `int(str(sku))` as a partial parse to an integer. -/
def pyIntParse (s : String) : Option Int :=
  match s.data with
  | '-' :: ds => (digitsVal ds).map (fun n => -(n : Int))
  | '+' :: ds => (digitsVal ds).map (fun n => (n : Int))
  | ds => (digitsVal ds).map (fun n => (n : Int))

/-- Left-pad a string with `'0'` to width `w`. -/
def padZeros (w : Nat) (s : String) : String :=
  String.mk (List.replicate (w - s.length) '0') ++ s

/-- Embedding of Python's format spec `{v:0wd}`: zero-pad the decimal
rendering to width `w`, with the sign (if any) before the zeros. -/
def pyFormat0d (w : Nat) (v : Int) : String :=
  if v < 0 then "-" ++ padZeros (w - 1) (toString v.natAbs)
  else padZeros w (toString v.toNat)

/-- Embedding of Python's `str.zfill(w)`. -/
def zfill (w : Nat) (s : String) : String :=
  match s.data with
  | c :: rest =>
    if c = '+' ∨ c = '-' then
      String.mk (c :: (List.replicate (w - s.length) '0' ++ rest))
    else padZeros w s
  | [] => padZeros w s

/-- Embedding of the SKU branch of `_build_zip_name`:
`f"{int(str(sku)):08d}"`, falling back to `str(sku).zfill(8)` on
`ValueError`. -/
def skuFormatted (s : String) : String :=
  match pyIntParse s with
  | some v => pyFormat0d 8 v
  | none => zfill 8 s

/-- Embedding of `PackagingPipeline._build_zip_name`
(packaging_utils.py, lines 221-230). -/
def buildZipName (pfx sku : String) (part : Int) (name : String) : String :=
  upperAlnumOnly pfx ++ skuFormatted sku ++ "-" ++ pyFormat0d 2 part
    ++ "_" ++ sanitizeName name ++ ".zip"

/- ## Directory trees and the Archive Scanner -/

/- A directory tree: a node is a plain file or a directory with a
forest of children; a scanned root is a forest.  (A mutual tree/forest
pair rather than `List`-nested trees, so that all recursions below are
structural.) -/
mutual
/-- A single directory entry: a plain file or a directory. -/
inductive FSTree where
  | file (name : String) : FSTree
  | dir (name : String) (children : FSForest) : FSTree
/-- A list of sibling directory entries. -/
inductive FSForest where
  | nil : FSForest
  | cons (t : FSTree) (ts : FSForest) : FSForest
end

mutual
/-- Relative segment paths of the files under one tree node. -/
def filePathsT : FSTree → List (List String)
  | .file n => [[n]]
  | .dir n cs => (filePathsF cs).map (n :: ·)
/-- Relative segment paths of every file in the forest, in tree order
(the order `os.walk` sees; the OS listing order is abstracted to the
forest's own order, which no proved property depends on). -/
def filePathsF : FSForest → List (List String)
  | .nil => []
  | .cons t ts => filePathsT t ++ filePathsF ts
end

mutual
/-- Relative segment paths of the directories under one tree node. -/
def dirPathsT : FSTree → List (List String)
  | .file _ => []
  | .dir n cs => [n] :: (dirPathsF cs).map (n :: ·)
/-- Relative segment paths of every directory in the forest. -/
def dirPathsF : FSForest → List (List String)
  | .nil => []
  | .cons t ts => dirPathsT t ++ dirPathsF ts
end

/-- ASCII lower-casing of a string, character by character (the effect
of `str.casefold`/`str.lower` on the ASCII names this code handles). -/
def lowerStr (s : String) : String :=
  String.mk (s.data.map Char.toLower)

/-- `s.endswith(pat)` as a suffix test on the character lists. -/
def endsWithB (s pat : String) : Bool :=
  pat.data.isSuffixOf s.data

/-- `fname.casefold().endswith(('.zip', '.rar', '.7z'))` from
`scanDirectory`. -/
def archiveExtB (fname : String) : Bool :=
  endsWithB (lowerStr fname) ".zip" || endsWithB (lowerStr fname) ".rar"
    || endsWithB (lowerStr fname) ".7z"

/-- Last segment of a path (`os.path.basename`). -/
def lastSeg (p : List String) : String :=
  p.getLastD ""

/-- The left-to-right scan of one file's relative-path segments in
`scanDirectory`: the first segment whose casefold is in the recognized
set marks everything before it (`parts[:i]`) as a content-root
candidate. -/
def findBaseAux (daz : List String) (acc : List String) :
    List String → Option (List String)
  | [] => none
  | s :: rest =>
    if daz.contains (lowerStr s) then some acc
    else findBaseAux daz (acc ++ [s]) rest

/-- Embedding of `ContentExtractionWorker.scanDirectory`
(extraction_utils.py, lines 128-151): returns the content-root candidate
relative paths and the embedded-archive relative paths.  `daz` is the
raw recognized-folder set; the constructor's casefolding
(`{s.casefold() for s in daz_folders}`) is applied here. -/
def scanDirectory (daz : List String) (ts : FSForest) :
    List (List String) × List (List String) :=
  let dazLower := daz.map lowerStr
  let fps := filePathsF ts
  (fps.filterMap fun p =>
      if archiveExtB (lastSeg p) then none else findBaseAux dazLower [] p,
   fps.filter fun p => archiveExtB (lastSeg p))

/- ## Extraction events and the safe-copy step -/

/-- Observable effects of one extraction run: filesystem writes and the
worker's two Qt signals. -/
inductive Event where
  | createdDir (dst : List String)
  | copiedFile (dst : List String)
  | copyFailed (src : List String)
  | copiedTemplate (name : String)
  | errorSignal (msg : String)
  | completeSignal
deriving DecidableEq

/-- The junk names skipped during the copy walk. -/
def ignoreNames : List String :=
  [".DS_Store", "Thumbs.db", "desktop.ini", "__MACOSX"]

/-- Longest shared segment run of two paths (`os.path.commonpath` of two
absolute paths, expressed on their segments). -/
def sharedStem : List String → List String → List String
  | a :: as, b :: bs => if a = b then a :: sharedStem as bs else []
  | _, _ => []

/-- `os.path.commonpath` over the normalized base-path candidates in
`extractRelevantContent` (lines 196-203), relative to the scanned
directory; `[]` is the scanned directory itself. -/
def commonBaseOf : List (List String) → List String
  | [] => []
  | b :: bs => bs.foldl (fun acc p => sharedStem acc (normPath p)) (normPath b)

/-- The clamp at lines 205-208: if the common base escapes the scanned
directory (its normalized relative form retains a `..`), fall back to
the scanned directory itself. -/
def clampBase (cb : List String) : List String :=
  if cb.contains ".." then [] else cb

/-- The effective common base used by the copy walk. -/
def effBase (bps : List (List String)) : List String :=
  clampBase (commonBaseOf bps)

/-- Directories processed by the copy walk: every directory strictly
below the effective common base, as a path relative to it (the walk at
lines 223-239 skips roots outside the common base). -/
def relDirsOf (ts : FSForest) (bps : List (List String)) :
    List (List String) :=
  (dirPathsF ts).filterMap fun p =>
    if effBase bps <+: p ∧ p ≠ effBase bps
    then some (p.drop (effBase bps).length) else none

/-- Source paths of the files processed by the copy walk (lines
241-262): files below the common base whose basename is not junk. -/
def srcFilesOf (ts : FSForest) (bps : List (List String)) :
    List (List String) :=
  (filePathsF ts).filter fun p =>
    decide (effBase bps <+: p) && p ≠ effBase bps
      && !(ignoreNames.contains (lastSeg p))

/-- The same files as paths relative to the common base (the `rel`
passed to `_safe_join`). -/
def relFilesOf (ts : FSForest) (bps : List (List String)) :
    List (List String) :=
  (srcFilesOf ts bps).map (·.drop (effBase bps).length)

/-- The `ValueError` message of `_safe_join`. -/
def unsafeMsg (rel : List String) : String :=
  "Unsafe path outside content dir: " ++ joinPath rel

/-- The serial directory-creation loop (lines 228-239): create each
validated destination, and on the first `_safe_join` failure stop with
the error event (the code emits the message and returns). -/
def dirPhase (cd : List String) : List (List String) → List Event × Bool
  | [] => ([], false)
  | r :: rs =>
    match safeJoin cd r with
    | some d =>
      let (es, ab) := dirPhase cd rs
      (.createdDir d :: es, ab)
    | none => ([.errorSignal (unsafeMsg r)], true)

/-- The file-validation loop (lines 248-262): every file's destination
is computed through `_safe_join` before anything is copied; the first
failure aborts with the error message and discards the collected list. -/
def validateFiles (cd cb : List String) :
    List (List String) → Except String (List (List String × List String))
  | [] => .ok []
  | p :: ps =>
    match safeJoin cd (p.drop cb.length) with
    | some dst => (validateFiles cd cb ps).map (fun l => (p, dst) :: l)
    | none => .error (unsafeMsg (p.drop cb.length))

/-- Embedding of `ContentExtractionWorker.extractRelevantContent`
(extraction_utils.py, lines 191-286) as an event trace.  `fails` is the
set of source files whose `shutil.copy2` raises inside `copy_file`; the
exception is caught there (lines 264-271), so a failed copy produces a
`copyFailed` event and the loop continues. -/
def extractRelevantContent (cd : List String) (ts : FSForest)
    (bps : List (List String)) (fails : List (List String)) : List Event :=
  match dirPhase cd (relDirsOf ts bps) with
  | (evs, true) => evs
  | (evs, false) =>
    match validateFiles cd (effBase bps) (srcFilesOf ts bps) with
    | .error msg => evs ++ [.errorSignal msg]
    | .ok pairs =>
      evs ++ pairs.map fun pr =>
        if fails.contains pr.1 then .copyFailed pr.1 else .copiedFile pr.2

/- ## The extraction run (`ContentExtractionWorker.run`) -/

/-- Boolean infix test on character lists (Python's `in` on strings). -/
def isInfixChars (pat : List Char) : List Char → Bool
  | [] => pat.isEmpty
  | s :: rest => (pat.isPrefixOf (s :: rest)) || isInfixChars pat rest

/-- `"templ" in os.path.basename(f).lower()` (run, lines 48-51). -/
def isTemplArchive (p : List String) : Bool :=
  isInfixChars "templ".data (lowerStr (lastSeg p)).data

/-- Inputs of one extraction run, after the source archive has been
decompressed into the temporary directory: the temporary tree, the
contents each embedded archive decompresses to (an association list;
a missing entry models a `patoolib` extraction failure), the
recognized-folder set, the destination content directory, the
template-copy flag, and the set of files whose copy step fails. -/
structure ExtractionInput where
  tempTree : FSForest
  nestedContents : List (List String × FSForest)
  dazFolders : List String
  contentDir : List String
  copyTemplates : Bool
  copyFails : List (List String)

/-- The template archives found in the temporary tree (run, 48-51). -/
def templateArchives (daz : List String) (ts : FSForest) :
    List (List String) :=
  ((scanDirectory daz ts).2).filter isTemplArchive

/-- The remaining (content) archives (run, 52-55). -/
def remainingArchives (daz : List String) (ts : FSForest) :
    List (List String) :=
  ((scanDirectory daz ts).2).filter fun p => !isTemplArchive p

/-- The content-root candidates of the temporary tree. -/
def topBasePaths (daz : List String) (ts : FSForest) :
    List (List String) :=
  (scanDirectory daz ts).1

/-- Embedding of `copyTemplateArchive` (lines 96-126): when enabled,
copy the first template archive to the template destination (and always
delete it from the temporary tree, which is internal and not an event). -/
def copyTemplateEvents (copyT : Bool) (daz : List String) (ts : FSForest) :
    List Event :=
  match templateArchives daz ts with
  | [] => []
  | t :: _ => if copyT then [.copiedTemplate (lastSeg t)] else []

/-- Embedding of `processEmbeddedArchive` (lines 153-189): decompress
the one content archive, re-scan, and either copy from the nested tree
or emit the no-recognized-folders error.  A missing association models a
`patoolib` failure, whose exception is caught and emitted (lines
175-184). -/
def processEmbeddedArchive (nested : List (List String × FSForest))
    (daz cd : List String) (fails : List (List String)) (a : List String) :
    List Event :=
  match nested.lookup a with
  | none => [.errorSignal "embedded archive extraction failed"]
  | some ts =>
    if (scanDirectory daz ts).1.isEmpty then
      [.errorSignal
        "No recognized DAZ main folders found in the embedded archive."]
    else extractRelevantContent cd ts (scanDirectory daz ts).1 fails

/-- Embedding of `ContentExtractionWorker.run` (lines 34-94) as an event
trace.  `success` is set to `True` after `processEmbeddedArchive` or
`extractRelevantContent` returns — whether or not those emitted an error
signal internally — and the `finally` block then emits
`extractionComplete`. -/
def runModel (inp : ExtractionInput) : List Event :=
  match remainingArchives inp.dazFolders inp.tempTree with
  | _ :: _ :: _ =>
    [.errorSignal "Multiple archive files found, canceling extraction."]
  | [a] =>
    copyTemplateEvents inp.copyTemplates inp.dazFolders inp.tempTree
      ++ processEmbeddedArchive inp.nestedContents inp.dazFolders
           inp.contentDir inp.copyFails a
      ++ [.completeSignal]
  | [] =>
    if (topBasePaths inp.dazFolders inp.tempTree).isEmpty then
      [.errorSignal "No recognized daz main folders found in the archive."]
    else
      copyTemplateEvents inp.copyTemplates inp.dazFolders inp.tempTree
        ++ extractRelevantContent inp.contentDir inp.tempTree
             (topBasePaths inp.dazFolders inp.tempTree) inp.copyFails
        ++ [.completeSignal]

/-- The two outcome signals of a run. -/
def isOutcome : Event → Bool
  | .errorSignal _ => true
  | .completeSignal => true
  | _ => false

/-- Whether an event is an error signal. -/
def isErrorEv : Event → Bool
  | .errorSignal _ => true
  | _ => false

/-- Whether an event is a (successful or attempted) file copy. -/
def isCopyEv : Event → Bool
  | .copiedFile _ => true
  | .copyFailed _ => true
  | _ => false

/-- Whether the run's inner stage (`processEmbeddedArchive` or
`extractRelevantContent`) emitted an error signal that `run` does not
see (it still sets `success = True` afterwards). -/
def innerErrored (inp : ExtractionInput) : Bool :=
  match remainingArchives inp.dazFolders inp.tempTree with
  | _ :: _ :: _ => false
  | [a] =>
    (processEmbeddedArchive inp.nestedContents inp.dazFolders
      inp.contentDir inp.copyFails a).any isErrorEv
  | [] =>
    if (topBasePaths inp.dazFolders inp.tempTree).isEmpty then false
    else
      (extractRelevantContent inp.contentDir inp.tempTree
        (topBasePaths inp.dazFolders inp.tempTree) inp.copyFails).any
        isErrorEv

/- ## Packaging progress (`PackagingPipeline.execute`) -/

/-- Embedding of `report_zip_progress` (packaging_utils.py, lines
92-95): `25 + int((percent / 100) * 75)`.  For integer percentages in
`[0, 100]` the float computation coincides with this natural-number
floor division. -/
def reportZipProgress (percent : Nat) : Nat :=
  25 + percent * 75 / 100

/-- The progress reports of a successful `execute` run (lines 69-98):
the fixed pre-compression reports, then one translated report per value
of the compression backend's progress stream.  A stage failure truncates
this list, so every report of any run appears in it. -/
def executeProgress (cleanSupport : Bool) (zipStream : List Nat) :
    List (Nat × String) :=
  (if cleanSupport then [(5, "Cleaning")] else [])
    ++ [(10, "Processing Image"), (15, "Creating Manifest"),
        (20, "Creating Supplement")]
    ++ zipStream.map fun p => (reportZipProgress p, "Packaging")

/- ## Manifest generation (`PackagingPipeline._create_manifest`) -/

/- An XML element as built by `xml.etree.ElementTree`: tag, attributes
in insertion order, children in insertion order (no text nodes are used
by this code).  Mutual element/forest pair for structural recursion. -/
mutual
/-- One XML element. -/
inductive XElem where
  | mk (tag : String) (attrs : List (String × String)) (children : XForest)
/-- A list of sibling XML elements. -/
inductive XForest where
  | nil : XForest
  | cons (e : XElem) (es : XForest) : XForest
end

/-- Build an XML sibling list from a `List`. -/
def XForest.ofList : List XElem → XForest
  | [] => .nil
  | e :: es => .cons e (XForest.ofList es)

/-- `minidom`'s attribute-value escaping (`_write_data`). -/
def escChar (c : Char) : List Char :=
  if c = '&' then "&amp;".data
  else if c = '<' then "&lt;".data
  else if c = '"' then "&quot;".data
  else if c = '>' then "&gt;".data
  else [c]

/-- Escape a whole attribute value. -/
def escapeAttr (s : String) : String :=
  String.mk (s.data.flatMap escChar)

/-- Render an attribute list as ` NAME="value"...`. -/
def renderAttrs : List (String × String) → String
  | [] => ""
  | (n, v) :: rest =>
    " " ++ n ++ "=" ++ "\"" ++ escapeAttr v ++ "\"" ++ renderAttrs rest

/-- `2 * ind` spaces: `toprettyxml(indent="  ")`. -/
def indentStr (ind : Nat) : String :=
  String.mk (List.replicate (2 * ind) ' ')

mutual
/-- Render one element, one line per tag, children indented two further
spaces; an element without children is self-closed, as `minidom` writes
it. -/
def renderElem (ind : Nat) : XElem → List String
  | .mk tag attrs .nil =>
    [indentStr ind ++ "<" ++ tag ++ renderAttrs attrs ++ "/>"]
  | .mk tag attrs (.cons c cs) =>
    (indentStr ind ++ "<" ++ tag ++ renderAttrs attrs ++ ">")
      :: (renderForest (ind + 1) (XForest.cons c cs)
          ++ [indentStr ind ++ "</" ++ tag ++ ">"])
/-- Render a sibling list of elements. -/
def renderForest (ind : Nat) : XForest → List String
  | .nil => []
  | .cons e es => renderElem ind e ++ renderForest ind es
end

/-- Embedding of `prettify` (packaging_utils.py, lines 20-25): pretty
print with two-space indent, drop the XML declaration line, keep the
final newline. -/
def prettify (e : XElem) : String :=
  String.intercalate "\n" (renderElem 0 e ++ [""])

/-- Code-point lexicographic `<` on character lists (Python's string
ordering). -/
def charListLt : List Char → List Char → Bool
  | _ :: _, [] => false
  | [], [] => false
  | [], _ :: _ => true
  | a :: as, b :: bs =>
    if a < b then true else if b < a then false else charListLt as bs

/-- Stable `≤` used for Python's `list.sort()` on strings (code-point
lexicographic). -/
def strLeB (a b : String) : Bool :=
  !(charListLt b.data a.data)

/-- Stable insertion into a sorted list, by a key. -/
def insertByKey {α : Type} (key : α → String) (a : α) :
    List α → List α
  | [] => [a]
  | b :: bs =>
    if strLeB (key a) (key b) then a :: b :: bs
    else b :: insertByKey key a bs

/-- Stable insertion sort by a key (Python's `sort()` is stable and
ascending). -/
def sortByKey {α : Type} (key : α → String) : List α → List α
  | [] => []
  | a :: as => insertByKey key a (sortByKey key as)

/-- Names of the plain files among a directory's children. -/
def childFileNames : FSForest → List String
  | .nil => []
  | .cons (.file n) ts => n :: childFileNames ts
  | .cons (.dir _ _) ts => childFileNames ts

/-- The subdirectories among a directory's children. -/
def childDirPairs : FSForest → List (String × FSForest)
  | .nil => []
  | .cons (.file _) ts => childDirPairs ts
  | .cons (.dir n cs) ts => (n, cs) :: childDirPairs ts

mutual
/-- Nesting depth of a tree, used as recursion fuel below. -/
def depthT : FSTree → Nat
  | .file _ => 1
  | .dir _ cs => 1 + depthF cs
/-- Nesting depth of a forest, used as recursion fuel below. -/
def depthF : FSForest → Nat
  | .nil => 0
  | .cons t ts => max (depthT t) (depthF ts)
end

/-- The `os.walk` file order of `_create_manifest` (lines 184-190) with
`dirs.sort()` and `files.sort()`: the current directory's files in
sorted order, then each subdirectory in sorted order, recursively.  The
fuel argument only bounds the recursion depth; `manifestPaths` supplies
the exact depth, so the tree is walked in full. -/
def manifestPathsFuel : Nat → FSForest → List (List String)
  | 0, _ => []
  | fuel + 1, ts =>
    (sortByKey id (childFileNames ts)).map (fun n => [n])
      ++ (sortByKey Prod.fst (childDirPairs ts)).flatMap fun pr =>
           (manifestPathsFuel fuel pr.2).map (pr.1 :: ·)

/-- Relative paths of all files under the content directory, in manifest
order. -/
def manifestPaths (ts : FSForest) : List (List String) :=
  manifestPathsFuel (depthF ts) ts

/-- Embedding of the element tree built by `_create_manifest`
(packaging_utils.py, lines 177-200): root `DAZInstallManifest
VERSION="0.1"`, one `GlobalID` child with the spec GUID, then one `File`
child per file with forward-slash relative path under `Content/`. -/
def createManifest (guid : String) (ts : FSForest) : XElem :=
  .mk "DAZInstallManifest" [("VERSION", "0.1")]
    (XForest.ofList
      (.mk "GlobalID" [("VALUE", guid)] .nil
        :: (manifestPaths ts).map fun p =>
             .mk "File"
               [("TARGET", "Content"), ("ACTION", "Install"),
                ("VALUE", "Content/" ++ joinPath p)] .nil))

/- ## Concrete scenario inputs used by individual claims -/

/-- C2's scenario: the source archive holds exactly one embedded content
archive whose own contents contain no recognized folder. -/
def c2Input : ExtractionInput :=
  { tempTree := .cons (.file "inner.zip") .nil,
    nestedContents :=
      [(["inner.zip"],
        .cons (.dir "stuff" (.cons (.file "readme.txt") .nil)) .nil)],
    dazFolders := ["data", "runtime"],
    contentDir := ["dest", "Content"],
    copyTemplates := true,
    copyFails := [] }

/-- C3's witness scenario: two embedded content archives. -/
def c3Input : ExtractionInput :=
  { tempTree := .cons (.file "a.zip") (.cons (.file "b.rar") .nil),
    nestedContents := [],
    dazFolders := ["data"],
    contentDir := ["dest", "Content"],
    copyTemplates := true,
    copyFails := [] }

/-- C7's family of inputs: the temporary tree holds exactly one file,
the archive `MyProduct_Templates.zip`, and template copying is
enabled. -/
def c7Input (daz cd : List String)
    (nested : List (List String × FSForest))
    (fails : List (List String)) : ExtractionInput :=
  { tempTree := .cons (.file "MyProduct_Templates.zip") .nil,
    nestedContents := nested,
    dazFolders := daz,
    contentDir := cd,
    copyTemplates := true,
    copyFails := fails }

/-- C8's witness forest: `Product/Data/x.duf`. -/
def c8Forest : FSForest :=
  .cons (.dir "Product"
    (.cons (.dir "Data" (.cons (.file "x.duf") .nil)) .nil)) .nil

/-- C9's content directory: `Data/b.duf` and `Runtime/Support/a.jpg`. -/
def c9Tree : FSForest :=
  .cons (.dir "Data" (.cons (.file "b.duf") .nil))
    (.cons (.dir "Runtime"
      (.cons (.dir "Support" (.cons (.file "a.jpg") .nil)) .nil)) .nil)

/- ## Supporting lemmas: characters and sanitization -/

theorem alnum_toUpper (c : Char) (h : isAlnumChar c = true) :
    isAlnumChar c.toUpper = true ∧ c.toUpper.isLower = false := by
  have hb : c.toNat < 123 := by
    simp only [isAlnumChar, Char.isAlpha, Char.isUpper, Char.isLower,
      Char.isDigit, Bool.or_eq_true, Bool.and_eq_true, decide_eq_true_eq,
      ge_iff_le] at h
    have hv : c.val ≤ 122 := by
      rcases h with (⟨_, h2⟩ | ⟨_, h2⟩) | ⟨_, h2⟩
      · exact UInt32.le_trans h2 (by decide)
      · exact h2
      · exact UInt32.le_trans h2 (by decide)
    have h3 : c.val.toNat ≤ (122 : UInt32).toNat := hv
    simpa [Char.toNat] using Nat.lt_succ_of_le h3
  have key : ∀ n < 123, isAlnumChar (Char.ofNat n) = true →
      isAlnumChar (Char.ofNat n).toUpper = true ∧
        ((Char.ofNat n).toUpper.isLower = false) := by decide
  have hk := key c.toNat hb (by rw [Char.ofNat_toNat]; exact h)
  rwa [Char.ofNat_toNat] at hk

theorem subBadRunsAux_good (l : List Char) :
    ∀ b, ∀ c ∈ subBadRunsAux b l, goodChar c = true := by
  induction l with
  | nil => intro b c hc; simp [subBadRunsAux] at hc
  | cons a as ih =>
    intro b d hd
    rw [subBadRunsAux] at hd
    by_cases hg : goodChar a = true
    · rw [if_pos hg] at hd
      rcases List.mem_cons.1 hd with rfl | hd
      · exact hg
      · exact ih false d hd
    · rw [if_neg hg] at hd
      by_cases hb : b = true
      · rw [if_pos hb] at hd
        exact ih true d hd
      · rw [if_neg hb] at hd
        rcases List.mem_cons.1 hd with rfl | hd
        · rfl
        · exact ih true d hd

theorem subBadRuns_good (l : List Char) :
    ∀ c ∈ subBadRuns l, goodChar c = true :=
  subBadRunsAux_good l false

theorem stripUnders_subset (l : List Char) : stripUnders l ⊆ l := by
  intro c hc
  unfold stripUnders at hc
  rw [List.mem_reverse] at hc
  have h1 := List.dropWhile_subset (l := (l.dropWhile (· = '_')).reverse)
    (· = '_') hc
  rw [List.mem_reverse] at h1
  exact List.dropWhile_subset _ h1

theorem head?_dropWhile_ne (p : Char → Bool) (l : List Char) (x : Char)
    (h : (l.dropWhile p).head? = some x) : p x = false := by
  induction l with
  | nil => simp [List.dropWhile] at h
  | cons a as ih =>
    rw [List.dropWhile_cons] at h
    by_cases hp : p a = true
    · rw [if_pos hp] at h; exact ih h
    · rw [if_neg hp] at h
      simp only [List.head?_cons, Option.some.injEq] at h
      subst h
      exact Bool.not_eq_true _ ▸ hp

theorem stripUnders_head (l : List Char) :
    (stripUnders l).head? ≠ some '_' := by
  unfold stripUnders
  rw [List.head?_reverse]
  intro h
  rcases List.dropWhile_suffix (l := (l.dropWhile (· = '_')).reverse)
      (· = '_') with ⟨t, ht⟩
  have hne : ((l.dropWhile (· = '_')).reverse.dropWhile (· = '_')) ≠ [] := by
    intro hnil; rw [hnil] at h; simp at h
  have hlast :
      ((l.dropWhile (· = '_')).reverse).getLast? = some '_' := by
    rw [← ht, List.getLast?_append]
    rw [h]; rfl
  rw [List.getLast?_reverse] at hlast
  have := head?_dropWhile_ne (· = '_') l '_' hlast
  simp at this

theorem stripUnders_last (l : List Char) :
    (stripUnders l).getLast? ≠ some '_' := by
  unfold stripUnders
  rw [List.getLast?_reverse]
  intro h
  have := head?_dropWhile_ne (· = '_') (l.dropWhile (· = '_')).reverse '_' h
  simp at this

/- ## Claims C5 and C6: the output archive filename -/

/-- Claim C5, counterexample: `_build_zip_name` has no defaults.  With
an empty (fully stripped) prefix and a name that sanitizes to the empty
string, the code produces `"00000047-03_.zip"`, not the
`"IM00000047-03_Package.zip"` the claim's `IM`/`Package` defaults would
require. -/
theorem c5_no_default_counterexample :
    buildZipName "" "47" 3 "!" = "00000047-03_.zip" ∧
      "00000047-03_.zip" ≠ "IM00000047-03_Package.zip" := by
  constructor
  · rfl
  · decide

/-- Claim C5 (amended): for every spec, the output filename is exactly
`{PREFIX}{SKU}-{PART}_{SANITIZED_NAME}.zip`, where PREFIX is the prefix
with non-alphanumerics stripped and upper-cased (the empty string stays
empty: there is no `"IM"` default), SKU is the sign-aware 8-digit
zero-padded integer when the SKU string parses as an integer and
otherwise the SKU string zero-filled to width 8 (never an exception),
PART is the 2-digit zero-padded part number, and SANITIZED_NAME
replaces runs of characters outside `[A-Za-z0-9._-]` with underscores
and strips leading/trailing underscores (the empty string stays empty:
there is no `"Package"` default). -/
theorem c5_zip_name_formula (pfx sku name : String) (part : Int) :
    buildZipName pfx sku part name
        = upperAlnumOnly pfx ++ skuFormatted sku ++ "-" ++ pyFormat0d 2 part
          ++ "_" ++ sanitizeName name ++ ".zip"
      ∧ (∀ c ∈ (upperAlnumOnly pfx).data,
          isAlnumChar c = true ∧ c.isLower = false)
      ∧ (∀ v, pyIntParse sku = some v → skuFormatted sku = pyFormat0d 8 v)
      ∧ (pyIntParse sku = none → skuFormatted sku = zfill 8 sku)
      ∧ (∀ c ∈ (sanitizeName name).data, goodChar c = true)
      ∧ (sanitizeName name).data.head? ≠ some '_'
      ∧ (sanitizeName name).data.getLast? ≠ some '_' := by
  refine ⟨rfl, ?_, ?_, ?_, ?_, ?_, ?_⟩
  · intro c hc
    have hc' : c ∈ (pfx.data.filter isAlnumChar).map Char.toUpper := hc
    rcases List.mem_map.1 hc' with ⟨c', hmem, rfl⟩
    exact alnum_toUpper c' (List.mem_filter.1 hmem).2
  · intro v hv
    unfold skuFormatted
    rw [hv]
  · intro hv
    unfold skuFormatted
    rw [hv]
  · intro c hc
    have hc' : c ∈ stripUnders (subBadRuns name.data) := hc
    exact subBadRuns_good name.data c (stripUnders_subset _ hc')
  · exact stripUnders_head (subBadRuns name.data)
  · exact stripUnders_last (subBadRuns name.data)

/-- Witness for C5's amended theorem at concrete inputs: the
non-numeric SKU `"x7"` takes the zfill fallback, the numeric SKU `"47"`
takes the 8-digit integer format, and the prefix characters come out
upper-case alphanumeric. -/
theorem c5_zip_name_formula_witness :
    skuFormatted "x7" = zfill 8 "x7"
      ∧ skuFormatted "47" = pyFormat0d 8 47
      ∧ isAlnumChar 'A' = true ∧ 'A'.isLower = false :=
  ⟨(c5_zip_name_formula "ab" "x7" "n m" 2).2.2.2.1 (by decide),
   (c5_zip_name_formula "ab" "47" "n m" 2).2.2.1 47 (by decide),
   (c5_zip_name_formula "ab" "47" "n m" 2).2.1 'A' (by decide)⟩

/-- Claim C6, counterexample: for prefix `"im*1"`, sku `"47"`, part 3,
name `"dForce Hair!"` the code returns
`"IM100000047-03_dForce_Hair.zip"` (the stripped upper-cased prefix is
`"IM1"`), not the claim's `"IM000000047-03_dForce_Hair.zip"`. -/
theorem c6_example_counterexample :
    buildZipName "im*1" "47" 3 "dForce Hair!"
        = "IM100000047-03_dForce_Hair.zip" ∧
      "IM100000047-03_dForce_Hair.zip"
        ≠ "IM000000047-03_dForce_Hair.zip" := by
  constructor
  · rfl
  · decide

/-- Claim C6 (amended): the zip filename build is a deterministic pure
function — two calls with the identical spec give the identical result —
and for prefix `"im*1"`, sku `"47"`, part 3, name `"dForce Hair!"` it
returns exactly `"IM100000047-03_dForce_Hair.zip"`. -/
theorem c6_zip_name_deterministic :
    buildZipName "im*1" "47" 3 "dForce Hair!"
        = "IM100000047-03_dForce_Hair.zip"
      ∧ buildZipName "im*1" "47" 3 "dForce Hair!"
        = buildZipName "im*1" "47" 3 "dForce Hair!" :=
  ⟨rfl, rfl⟩

/- ## Supporting lemmas: path normalization and the safe-copy loops -/

/-- A string that can occur as a real directory-entry name: never `..`,
`.`, or empty (the OS cannot list such entries). -/
def validName (s : String) : Bool :=
  s ≠ ".." && s ≠ "." && s ≠ ""

theorem foldl_normStep_valid (l : List String) :
    ∀ acc, (∀ s ∈ l, validName s = true) →
      l.foldl normStep acc = l.reverse ++ acc := by
  induction l with
  | nil => intro acc _; simp
  | cons s rest ih =>
    intro acc hv
    have hs := hv s (List.mem_cons_self s rest)
    simp only [validName, Bool.and_eq_true, decide_eq_true_eq, ne_eq] at hs
    have hstep : normStep acc s = s :: acc := by
      unfold normStep
      rw [if_neg (by tauto), if_neg (by tauto)]
    rw [List.foldl_cons, hstep,
      ih (s :: acc) (fun t ht => hv t (List.mem_cons_of_mem s ht))]
    simp

theorem normPath_valid (l : List String)
    (hv : ∀ s ∈ l, validName s = true) : normPath l = l := by
  unfold normPath
  rw [foldl_normStep_valid l [] hv]
  simp

theorem safeJoin_valid (base rel : List String)
    (hb : ∀ s ∈ base, validName s = true)
    (hr : ∀ s ∈ rel, validName s = true) :
    safeJoin base rel = some (base ++ rel) := by
  unfold safeJoin
  rw [normPath_valid rel hr,
    normPath_valid (base ++ rel)
      (by intro s hs; rcases List.mem_append.1 hs with h | h
          exacts [hb s h, hr s h])]
  rw [if_pos (List.prefix_append base rel)]

theorem dirPhase_snd_iff (cd : List String) (rs : List (List String)) :
    (dirPhase cd rs).2 = true ↔ ∃ r ∈ rs, safeJoin cd r = none := by
  induction rs with
  | nil => simp [dirPhase]
  | cons r rest ih =>
    rw [dirPhase]
    cases hj : safeJoin cd r with
    | some d =>
      simp only [List.mem_cons]
      constructor
      · intro h
        rcases ih.1 h with ⟨r', hr', hn⟩
        exact ⟨r', Or.inr hr', hn⟩
      · rintro ⟨r', rfl | hr', hn⟩
        · rw [hj] at hn; cases hn
        · exact ih.2 ⟨r', hr', hn⟩
    | none =>
      simp only [List.mem_cons]
      exact ⟨fun _ => ⟨r, Or.inl rfl, hj⟩, fun _ => by trivial⟩

theorem dirPhase_events (cd : List String) (rs : List (List String)) :
    ∀ e ∈ (dirPhase cd rs).1,
      (∃ d, e = Event.createdDir d) ∨ (∃ m, e = Event.errorSignal m) := by
  induction rs with
  | nil => simp [dirPhase]
  | cons r rest ih =>
    rw [dirPhase]
    cases hj : safeJoin cd r with
    | some d =>
      intro e he
      rcases List.mem_cons.1 he with rfl | he
      · exact Or.inl ⟨d, rfl⟩
      · exact ih e he
    | none =>
      intro e he
      rcases List.mem_cons.1 he with rfl | he
      · exact Or.inr ⟨unsafeMsg r, rfl⟩
      · cases he

theorem dirPhase_error_of_snd (cd : List String) (rs : List (List String))
    (h : (dirPhase cd rs).2 = true) :
    ∃ m, Event.errorSignal m ∈ (dirPhase cd rs).1 := by
  induction rs with
  | nil => simp [dirPhase] at h
  | cons r rest ih =>
    rw [dirPhase] at h ⊢
    cases hj : safeJoin cd r with
    | some d =>
      rw [hj] at h
      rcases ih h with ⟨m, hm⟩
      exact ⟨m, List.mem_cons_of_mem _ hm⟩
    | none => exact ⟨unsafeMsg r, List.mem_cons_self _ _⟩

theorem validateFiles_error (cd cb : List String)
    (ps : List (List String))
    (h : ∃ p ∈ ps, safeJoin cd (p.drop cb.length) = none) :
    ∃ m, validateFiles cd cb ps = Except.error m := by
  induction ps with
  | nil => simp at h
  | cons p rest ih =>
    rw [validateFiles]
    cases hj : safeJoin cd (p.drop cb.length) with
    | some dst =>
      rcases h with ⟨q, hq, hn⟩
      rcases List.mem_cons.1 hq with rfl | hq
      · rw [hj] at hn; cases hn
      · rcases ih ⟨q, hq, hn⟩ with ⟨m, hm⟩
        exact ⟨m, by rw [hm]; rfl⟩
    | none => exact ⟨unsafeMsg (p.drop cb.length), rfl⟩

/- ## Equations for the three exits of the safe-copy step -/

theorem extract_eq_abort (cd : List String) (ts : FSForest)
    (bps fails : List (List String))
    (h : (dirPhase cd (relDirsOf ts bps)).2 = true) :
    extractRelevantContent cd ts bps fails
      = (dirPhase cd (relDirsOf ts bps)).1 := by
  unfold extractRelevantContent
  rcases hp : dirPhase cd (relDirsOf ts bps) with ⟨evs, ab⟩
  rw [hp] at h
  cases ab
  · exact Bool.noConfusion h
  · rfl

theorem extract_eq_fileError (cd : List String) (ts : FSForest)
    (bps fails : List (List String)) (m : String)
    (h : (dirPhase cd (relDirsOf ts bps)).2 = false)
    (hv : validateFiles cd (effBase bps) (srcFilesOf ts bps)
      = Except.error m) :
    extractRelevantContent cd ts bps fails
      = (dirPhase cd (relDirsOf ts bps)).1 ++ [Event.errorSignal m] := by
  unfold extractRelevantContent
  rcases hp : dirPhase cd (relDirsOf ts bps) with ⟨evs, ab⟩
  rw [hp] at h
  cases ab
  · rw [hv]
  · exact Bool.noConfusion h

theorem extract_eq_copies (cd : List String) (ts : FSForest)
    (bps fails : List (List String))
    (pairs : List (List String × List String))
    (h : (dirPhase cd (relDirsOf ts bps)).2 = false)
    (hv : validateFiles cd (effBase bps) (srcFilesOf ts bps)
      = Except.ok pairs) :
    extractRelevantContent cd ts bps fails
      = (dirPhase cd (relDirsOf ts bps)).1
        ++ pairs.map (fun pr =>
            if fails.contains pr.1 then Event.copyFailed pr.1
            else Event.copiedFile pr.2) := by
  unfold extractRelevantContent
  rcases hp : dirPhase cd (relDirsOf ts bps) with ⟨evs, ab⟩
  rw [hp] at h
  cases ab
  · rw [hv]
  · exact Bool.noConfusion h

/- ## Claim C1: the safe-copy step checks and aborts -/

/-- Claim C1: during the safe-copy step, every directory's and file's
re-anchored destination is checked by `_safe_join`; if any single
re-anchored path resolves outside the content directory, the extraction
aborts with a safety error signal, and no file at all is copied (file
copies only start after every path has validated), so the violating path
is never silently skipped or corrected. -/
theorem c1_safe_copy_aborts (cd : List String) (ts : FSForest)
    (bps fails : List (List String))
    (h : ∃ r ∈ relDirsOf ts bps ++ relFilesOf ts bps, safeJoin cd r = none) :
    (∃ m, Event.errorSignal m ∈ extractRelevantContent cd ts bps fails)
      ∧ (extractRelevantContent cd ts bps fails).filter isCopyEv = []
      ∧ Event.completeSignal ∉ extractRelevantContent cd ts bps fails := by
  have hsh := dirPhase_events cd (relDirsOf ts bps)
  by_cases hd : ∃ r ∈ relDirsOf ts bps, safeJoin cd r = none
  · have habort : (dirPhase cd (relDirsOf ts bps)).2 = true :=
      (dirPhase_snd_iff cd (relDirsOf ts bps)).2 hd
    rw [extract_eq_abort cd ts bps fails habort]
    rcases dirPhase_error_of_snd cd (relDirsOf ts bps) habort with ⟨m, hm⟩
    refine ⟨⟨m, hm⟩, ?_, ?_⟩
    · rw [List.filter_eq_nil_iff]
      intro e he
      rcases hsh e he with ⟨d, rfl⟩ | ⟨m2, rfl⟩ <;> simp [isCopyEv]
    · intro hc
      rcases hsh _ hc with ⟨d, hd2⟩ | ⟨m2, hm2⟩
      · exact Event.noConfusion hd2
      · exact Event.noConfusion hm2
  · have hfile : ∃ p ∈ srcFilesOf ts bps,
        safeJoin cd (p.drop (effBase bps).length) = none := by
      rcases h with ⟨r, hr, hn⟩
      rcases List.mem_append.1 hr with hr | hr
      · exact absurd ⟨r, hr, hn⟩ hd
      · rcases List.mem_map.1 hr with ⟨p, hp, rfl⟩
        exact ⟨p, hp, hn⟩
    have hok : (dirPhase cd (relDirsOf ts bps)).2 = false := by
      rcases hb : (dirPhase cd (relDirsOf ts bps)).2 with _ | _
      · rfl
      · exact absurd ((dirPhase_snd_iff cd (relDirsOf ts bps)).1 hb) hd
    rcases validateFiles_error cd (effBase bps) (srcFilesOf ts bps) hfile
      with ⟨m, hm⟩
    rw [extract_eq_fileError cd ts bps fails m hok hm]
    refine ⟨⟨m, List.mem_append_right _ (List.mem_singleton.2 rfl)⟩, ?_, ?_⟩
    · rw [List.filter_append, List.filter_eq_nil_iff.2
        (fun e he => by
          rcases hsh e he with ⟨d, rfl⟩ | ⟨m2, rfl⟩ <;> simp [isCopyEv])]
      simp [isCopyEv]
    · intro hc
      rcases List.mem_append.1 hc with hc | hc
      · rcases hsh _ hc with ⟨d, hd2⟩ | ⟨m2, hm2⟩
        · exact Event.noConfusion hd2
        · exact Event.noConfusion hm2
      · simp at hc

/-- Witness for C1 at a concrete input: with content directory
`dest/Content` and a temporary tree containing a `..` entry, the
relative dir path `..` fails `_safe_join`; the extraction trace carries
an error signal, no copy event, and no completion. -/
theorem c1_safe_copy_aborts_witness :
    (∃ r ∈ relDirsOf
          (FSForest.cons (FSTree.dir ".."
            (FSForest.cons (FSTree.file "evil.txt") FSForest.nil))
            FSForest.nil) []
        ++ relFilesOf
          (FSForest.cons (FSTree.dir ".."
            (FSForest.cons (FSTree.file "evil.txt") FSForest.nil))
            FSForest.nil) [],
        safeJoin ["dest", "Content"] r = none)
      ∧ ((∃ m, Event.errorSignal m ∈
            extractRelevantContent ["dest", "Content"]
              (FSForest.cons (FSTree.dir ".."
                (FSForest.cons (FSTree.file "evil.txt") FSForest.nil))
                FSForest.nil) [] [])
        ∧ (extractRelevantContent ["dest", "Content"]
            (FSForest.cons (FSTree.dir ".."
              (FSForest.cons (FSTree.file "evil.txt") FSForest.nil))
              FSForest.nil) [] []).filter isCopyEv = []
        ∧ Event.completeSignal ∉
            extractRelevantContent ["dest", "Content"]
              (FSForest.cons (FSTree.dir ".."
                (FSForest.cons (FSTree.file "evil.txt") FSForest.nil))
                FSForest.nil) [] []) :=
  ⟨by decide,
   c1_safe_copy_aborts ["dest", "Content"]
     (FSForest.cons (FSTree.dir ".."
       (FSForest.cons (FSTree.file "evil.txt") FSForest.nil))
       FSForest.nil) [] [] (by decide)⟩

/- ## Supporting lemmas: shapes of run events -/

theorem isOutcome_of_ne_complete (e : Event)
    (h : e ≠ Event.completeSignal) : isOutcome e = isErrorEv e := by
  cases e <;> first
    | rfl
    | exact absurd rfl h

theorem copyMap_filter_nil (pairs : List (List String × List String))
    (fails : List (List String)) :
    ((pairs.map fun pr =>
        if fails.contains pr.1 then Event.copyFailed pr.1
        else Event.copiedFile pr.2).filter isOutcome) = [] := by
  rw [List.filter_eq_nil_iff]
  intro e he
  rcases List.mem_map.1 he with ⟨pr, _, rfl⟩
  by_cases hf : fails.contains pr.1 = true
  · rw [if_pos hf]; simp [isOutcome]
  · rw [if_neg hf]; simp [isOutcome]

theorem extract_no_complete (cd : List String) (ts : FSForest)
    (bps fails : List (List String)) :
    Event.completeSignal ∉ extractRelevantContent cd ts bps fails := by
  have hsh := dirPhase_events cd (relDirsOf ts bps)
  cases hb : (dirPhase cd (relDirsOf ts bps)).2 with
  | true =>
    rw [extract_eq_abort cd ts bps fails hb]
    intro hc
    rcases hsh _ hc with ⟨d, hd⟩ | ⟨m2, hm⟩
    · exact Event.noConfusion hd
    · exact Event.noConfusion hm
  | false =>
    cases hv : validateFiles cd (effBase bps) (srcFilesOf ts bps) with
    | error m =>
      rw [extract_eq_fileError cd ts bps fails m hb hv]
      intro hc
      rcases List.mem_append.1 hc with hc | hc
      · rcases hsh _ hc with ⟨d, hd⟩ | ⟨m2, hm⟩
        · exact Event.noConfusion hd
        · exact Event.noConfusion hm
      · simp at hc
    | ok pairs =>
      rw [extract_eq_copies cd ts bps fails pairs hb hv]
      intro hc
      rcases List.mem_append.1 hc with hc | hc
      · rcases hsh _ hc with ⟨d, hd⟩ | ⟨m2, hm⟩
        · exact Event.noConfusion hd
        · exact Event.noConfusion hm
      · rcases List.mem_map.1 hc with ⟨pr, _, hpr⟩
        by_cases hf : fails.contains pr.1 = true
        · rw [if_pos hf] at hpr; exact Event.noConfusion hpr
        · rw [if_neg hf] at hpr; exact Event.noConfusion hpr

theorem extract_filter_indep (cd : List String) (ts : FSForest)
    (bps f g : List (List String)) :
    (extractRelevantContent cd ts bps f).filter isOutcome
      = (extractRelevantContent cd ts bps g).filter isOutcome := by
  cases hb : (dirPhase cd (relDirsOf ts bps)).2 with
  | true =>
    rw [extract_eq_abort cd ts bps f hb, extract_eq_abort cd ts bps g hb]
  | false =>
    cases hv : validateFiles cd (effBase bps) (srcFilesOf ts bps) with
    | error m =>
      rw [extract_eq_fileError cd ts bps f m hb hv,
        extract_eq_fileError cd ts bps g m hb hv]
    | ok pairs =>
      rw [extract_eq_copies cd ts bps f pairs hb hv,
        extract_eq_copies cd ts bps g pairs hb hv,
        List.filter_append, List.filter_append,
        copyMap_filter_nil pairs f, copyMap_filter_nil pairs g]

theorem copyTemplateEvents_not_outcome (copyT : Bool)
    (daz : List String) (ts : FSForest) :
    ∀ e ∈ copyTemplateEvents copyT daz ts, isOutcome e = false := by
  intro e he
  unfold copyTemplateEvents at he
  rcases h : templateArchives daz ts with _ | ⟨t, rest⟩
  · rw [h] at he; cases he
  · rw [h] at he
    cases hc : copyT
    · rw [hc] at he; cases he
    · rw [hc] at he
      rcases List.mem_singleton.1 he with rfl
      rfl

theorem processEmbedded_eq_miss
    (nested : List (List String × FSForest)) (daz cd : List String)
    (fails : List (List String)) (a : List String)
    (hl : nested.lookup a = none) :
    processEmbeddedArchive nested daz cd fails a
      = [Event.errorSignal "embedded archive extraction failed"] := by
  unfold processEmbeddedArchive
  rw [hl]

theorem processEmbedded_eq_found
    (nested : List (List String × FSForest)) (daz cd : List String)
    (fails : List (List String)) (a : List String) (ts : FSForest)
    (hl : nested.lookup a = some ts) :
    processEmbeddedArchive nested daz cd fails a
      = if (scanDirectory daz ts).1.isEmpty then
          [Event.errorSignal
            "No recognized DAZ main folders found in the embedded archive."]
        else extractRelevantContent cd ts (scanDirectory daz ts).1 fails := by
  unfold processEmbeddedArchive
  rw [hl]

theorem processEmbedded_no_complete
    (nested : List (List String × FSForest)) (daz cd : List String)
    (fails : List (List String)) (a : List String) :
    Event.completeSignal ∉ processEmbeddedArchive nested daz cd fails a := by
  cases hl : nested.lookup a with
  | none =>
    rw [processEmbedded_eq_miss nested daz cd fails a hl]
    simp
  | some ts =>
    rw [processEmbedded_eq_found nested daz cd fails a ts hl]
    cases hni : (scanDirectory daz ts).1.isEmpty with
    | true => simp
    | false =>
      simp only [Bool.false_eq_true, if_false]
      exact extract_no_complete cd ts (scanDirectory daz ts).1 fails

theorem processEmbedded_filter_indep
    (nested : List (List String × FSForest)) (daz cd : List String)
    (f g : List (List String)) (a : List String) :
    (processEmbeddedArchive nested daz cd f a).filter isOutcome
      = (processEmbeddedArchive nested daz cd g a).filter isOutcome := by
  cases hl : nested.lookup a with
  | none =>
    rw [processEmbedded_eq_miss nested daz cd f a hl,
      processEmbedded_eq_miss nested daz cd g a hl]
  | some ts =>
    rw [processEmbedded_eq_found nested daz cd f a ts hl,
      processEmbedded_eq_found nested daz cd g a ts hl]
    cases hni : (scanDirectory daz ts).1.isEmpty with
    | true => simp
    | false =>
      simp only [Bool.false_eq_true, if_false]
      exact extract_filter_indep cd ts (scanDirectory daz ts).1 f g

/- ## Branch equations for the run model -/

theorem runModel_eq_multi (tt : FSForest)
    (nc : List (List String × FSForest)) (dz cdir : List String)
    (ct : Bool) (cf : List (List String)) (a b : List String)
    (rest : List (List String))
    (hr : remainingArchives dz tt = a :: b :: rest) :
    runModel ⟨tt, nc, dz, cdir, ct, cf⟩
      = [Event.errorSignal
          "Multiple archive files found, canceling extraction."] := by
  unfold runModel
  dsimp only
  rw [hr]

theorem runModel_eq_one (tt : FSForest)
    (nc : List (List String × FSForest)) (dz cdir : List String)
    (ct : Bool) (cf : List (List String)) (a : List String)
    (hr : remainingArchives dz tt = [a]) :
    runModel ⟨tt, nc, dz, cdir, ct, cf⟩
      = copyTemplateEvents ct dz tt
        ++ processEmbeddedArchive nc dz cdir cf a
        ++ [Event.completeSignal] := by
  unfold runModel
  dsimp only
  rw [hr]

theorem runModel_eq_noArchive (tt : FSForest)
    (nc : List (List String × FSForest)) (dz cdir : List String)
    (ct : Bool) (cf : List (List String))
    (hr : remainingArchives dz tt = []) :
    runModel ⟨tt, nc, dz, cdir, ct, cf⟩
      = if (topBasePaths dz tt).isEmpty then
          [Event.errorSignal
            "No recognized daz main folders found in the archive."]
        else
          copyTemplateEvents ct dz tt
            ++ extractRelevantContent cdir tt (topBasePaths dz tt) cf
            ++ [Event.completeSignal] := by
  unfold runModel
  dsimp only
  rw [hr]

theorem innerErrored_eq_multi (tt : FSForest)
    (nc : List (List String × FSForest)) (dz cdir : List String)
    (ct : Bool) (cf : List (List String)) (a b : List String)
    (rest : List (List String))
    (hr : remainingArchives dz tt = a :: b :: rest) :
    innerErrored ⟨tt, nc, dz, cdir, ct, cf⟩ = false := by
  unfold innerErrored
  dsimp only
  rw [hr]

theorem innerErrored_eq_one (tt : FSForest)
    (nc : List (List String × FSForest)) (dz cdir : List String)
    (ct : Bool) (cf : List (List String)) (a : List String)
    (hr : remainingArchives dz tt = [a]) :
    innerErrored ⟨tt, nc, dz, cdir, ct, cf⟩
      = (processEmbeddedArchive nc dz cdir cf a).any isErrorEv := by
  unfold innerErrored
  dsimp only
  rw [hr]

theorem innerErrored_eq_noArchive (tt : FSForest)
    (nc : List (List String × FSForest)) (dz cdir : List String)
    (ct : Bool) (cf : List (List String))
    (hr : remainingArchives dz tt = []) :
    innerErrored ⟨tt, nc, dz, cdir, ct, cf⟩
      = if (topBasePaths dz tt).isEmpty then false
        else
          (extractRelevantContent cdir tt (topBasePaths dz tt) cf).any
            isErrorEv := by
  unfold innerErrored
  dsimp only
  rw [hr]

/-- Outcome bookkeeping for the two branches of `run` that reach an
inner stage: appending the completion signal to outcome-free template
events and inner events that carry no completion gives both signals iff
the inner stage errored, and exactly one outcome otherwise. -/
theorem outcomes_branch (T P : List Event)
    (hT : ∀ e ∈ T, isOutcome e = false)
    (hP : Event.completeSignal ∉ P) :
    (P.any isErrorEv = true →
        Event.completeSignal ∈ T ++ P ++ [Event.completeSignal]
          ∧ (T ++ P ++ [Event.completeSignal]).any isErrorEv = true)
      ∧ (P.any isErrorEv = false →
          ((T ++ P ++ [Event.completeSignal]).filter isOutcome).length
            = 1) := by
  constructor
  · intro hA
    constructor
    · exact List.mem_append_right _ (List.mem_singleton.2 rfl)
    · rcases List.any_eq_true.1 hA with ⟨e, he, hee⟩
      exact List.any_eq_true.2
        ⟨e, List.mem_append_left _ (List.mem_append_right _ he), hee⟩
  · intro hA
    rw [List.filter_append, List.filter_append]
    rw [List.filter_eq_nil_iff.2 (fun e he => by simp [hT e he])]
    rw [List.filter_eq_nil_iff.2 (fun e he => by
      rw [isOutcome_of_ne_complete e (fun hc => hP (hc ▸ he))]
      exact List.any_eq_false.1 hA e he)]
    simp [isOutcome]

/-- Core of claim C2's amended statement, over the fields of the run:
if the inner stage emitted an error the trace has both outcome signals,
otherwise exactly one. -/
theorem outcome_dichotomy (tt : FSForest)
    (nc : List (List String × FSForest)) (dz cdir : List String)
    (ct : Bool) (cf : List (List String)) :
    if innerErrored ⟨tt, nc, dz, cdir, ct, cf⟩ then
      Event.completeSignal ∈ runModel ⟨tt, nc, dz, cdir, ct, cf⟩
        ∧ (runModel ⟨tt, nc, dz, cdir, ct, cf⟩).any isErrorEv = true
    else ((runModel ⟨tt, nc, dz, cdir, ct, cf⟩).filter isOutcome).length
      = 1 := by
  have hT := copyTemplateEvents_not_outcome ct dz tt
  rcases hr : remainingArchives dz tt with _ | ⟨a, _ | ⟨b, rest⟩⟩
  · rw [runModel_eq_noArchive tt nc dz cdir ct cf hr,
      innerErrored_eq_noArchive tt nc dz cdir ct cf hr]
    cases hbp : (topBasePaths dz tt).isEmpty with
    | true => simp [isOutcome]
    | false =>
      simp only [Bool.false_eq_true, if_false]
      have hE := extract_no_complete cdir tt (topBasePaths dz tt) cf
      have hO := outcomes_branch (copyTemplateEvents ct dz tt)
        (extractRelevantContent cdir tt (topBasePaths dz tt) cf) hT hE
      cases hA : (extractRelevantContent cdir tt (topBasePaths dz tt)
          cf).any isErrorEv with
      | true =>
        rw [if_pos rfl]
        exact hO.1 hA
      | false =>
        rw [if_neg (by simp)]
        exact hO.2 hA
  · rw [runModel_eq_one tt nc dz cdir ct cf a hr,
      innerErrored_eq_one tt nc dz cdir ct cf a hr]
    have hP := processEmbedded_no_complete nc dz cdir cf a
    have hO := outcomes_branch (copyTemplateEvents ct dz tt)
      (processEmbeddedArchive nc dz cdir cf a) hT hP
    cases hA : (processEmbeddedArchive nc dz cdir cf a).any isErrorEv with
    | true =>
      rw [if_pos rfl]
      exact hO.1 hA
    | false =>
      rw [if_neg (by simp)]
      exact hO.2 hA
  · rw [runModel_eq_multi tt nc dz cdir ct cf a b rest hr,
      innerErrored_eq_multi tt nc dz cdir ct cf a b rest hr]
    simp [isOutcome]

/- ## Claim C3: multiple content archives abort with no changes -/

/-- Claim C3: whenever the temporary tree holds more than one content
(non-template) archive, the run's whole event trace is the single
multiple-archives error signal — so nothing is copied or created in the
destination content directory and no template is siphoned. -/
theorem c3_multiple_archives_abort (inp : ExtractionInput)
    (h : 1 < (remainingArchives inp.dazFolders inp.tempTree).length) :
    runModel inp
      = [Event.errorSignal
          "Multiple archive files found, canceling extraction."] := by
  rcases inp with ⟨tt, nc, dz, cdir, ct, cf⟩
  rcases hr : remainingArchives dz tt with _ | ⟨a, _ | ⟨b, rest⟩⟩
  · rw [hr] at h; simp at h
  · rw [hr] at h; simp at h
  · exact runModel_eq_multi tt nc dz cdir ct cf a b rest hr

/-- Witness for C3 at a concrete input with two embedded archives. -/
theorem c3_multiple_archives_abort_witness :
    1 < (remainingArchives c3Input.dazFolders c3Input.tempTree).length
      ∧ runModel c3Input
        = [Event.errorSignal
            "Multiple archive files found, canceling extraction."] :=
  ⟨by decide, c3_multiple_archives_abort c3Input (by decide)⟩

/- ## Claim C2: outcome signals of one run -/

/-- Claim C2, counterexample: for a source archive holding exactly one
embedded content archive with no recognized folders inside, the worker
emits the error signal from `processEmbeddedArchive` and then — because
`run` sets `success = True` regardless — also the completion signal:
both outcome signals in one run. -/
theorem c2_both_signals_counterexample :
    runModel c2Input
      = [Event.errorSignal
          "No recognized DAZ main folders found in the embedded archive.",
         Event.completeSignal] := by
  decide

/-- Claim C2 (amended): a run emits exactly one of the two outcome
signals, except when the embedded-archive processing or the safe-copy
step reports an error internally: `run` does not see that error, so the
run then emits both the error signal and the completion signal. -/
theorem c2_one_outcome_unless_inner_error (inp : ExtractionInput) :
    if innerErrored inp then
      Event.completeSignal ∈ runModel inp
        ∧ (runModel inp).any isErrorEv = true
    else ((runModel inp).filter isOutcome).length = 1 := by
  rcases inp with ⟨tt, nc, dz, cdir, ct, cf⟩
  exact outcome_dichotomy tt nc dz cdir ct cf

/- ## Claim C7: a sole template archive is classified but not copied -/

/-- Claim C7, counterexample: when the only embedded file is
`MyProduct_Templates.zip` and template copying is enabled, the run
takes the no-recognized-folders error branch and never copies the
template: no `copiedTemplate` event occurs, so no copy is present at
the template destination after the run. -/
theorem c7_sole_template_counterexample :
    runModel (c7Input ["data", "runtime"] ["dest", "Content"] [] [])
        = [Event.errorSignal
            "No recognized daz main folders found in the archive."]
      ∧ Event.copiedTemplate "MyProduct_Templates.zip"
          ∉ runModel
              (c7Input ["data", "runtime"] ["dest", "Content"] [] []) := by
  decide

/-- Claim C7 (amended): an archive whose sole embedded file is the
archive `MyProduct_Templates.zip` has it classified as a template
(excluded from the content-archive set), but — because no content
archive and no content-root candidate remain — the run always fails
with the no-recognized-folders error and the template is not copied,
even with template-copying enabled; templates are only copied when a
content archive or a content-root candidate is also present. -/
theorem c7_sole_template_classified_not_copied (daz cd : List String)
    (nested : List (List String × FSForest))
    (fails : List (List String)) :
    templateArchives daz (FSForest.cons
        (FSTree.file "MyProduct_Templates.zip") FSForest.nil)
        = [["MyProduct_Templates.zip"]]
      ∧ remainingArchives daz (FSForest.cons
          (FSTree.file "MyProduct_Templates.zip") FSForest.nil) = []
      ∧ runModel (c7Input daz cd nested fails)
        = [Event.errorSignal
            "No recognized daz main folders found in the archive."] :=
  ⟨rfl, rfl, rfl⟩

/- ## Claim C10: per-file copy failures do not change the outcome -/

/-- Claim C10: a failure of `shutil.copy2` on any set of individual
files is caught inside the per-file `copy_file` task; the run's outcome
signals are exactly those of the run in which those copies succeed — in
particular the worker still emits the completion signal, so the caller
receives success even when some files were not copied. -/
theorem c10_copy_failure_does_not_fail_run (inp : ExtractionInput)
    (fails : List (List String)) :
    ((runModel { inp with copyFails := fails }).filter isOutcome
        = (runModel inp).filter isOutcome)
      ∧ (Event.completeSignal ∈ runModel { inp with copyFails := fails }
          ↔ Event.completeSignal ∈ runModel inp) := by
  rcases inp with ⟨tt, nc, dz, cdir, ct, cf⟩
  have hmain : (runModel ⟨tt, nc, dz, cdir, ct, fails⟩).filter isOutcome
      = (runModel ⟨tt, nc, dz, cdir, ct, cf⟩).filter isOutcome := by
    rcases hr : remainingArchives dz tt with _ | ⟨a, _ | ⟨b, rest⟩⟩
    · rw [runModel_eq_noArchive tt nc dz cdir ct fails hr,
        runModel_eq_noArchive tt nc dz cdir ct cf hr]
      cases hbp : (topBasePaths dz tt).isEmpty with
      | true => simp
      | false =>
        simp only [Bool.false_eq_true, if_false]
        rw [List.filter_append, List.filter_append,
          List.filter_append, List.filter_append,
          extract_filter_indep cdir tt (topBasePaths dz tt) fails cf]
    · rw [runModel_eq_one tt nc dz cdir ct fails a hr,
        runModel_eq_one tt nc dz cdir ct cf a hr,
        List.filter_append, List.filter_append,
        List.filter_append, List.filter_append,
        processEmbedded_filter_indep nc dz cdir fails cf a]
    · rw [runModel_eq_multi tt nc dz cdir ct fails a b rest hr,
        runModel_eq_multi tt nc dz cdir ct cf a b rest hr]
  refine ⟨hmain, ?_, ?_⟩
  · intro h
    have h2 : Event.completeSignal ∈
        (runModel ⟨tt, nc, dz, cdir, ct, fails⟩).filter isOutcome :=
      List.mem_filter.2 ⟨h, rfl⟩
    rw [hmain] at h2
    exact (List.mem_filter.1 h2).1
  · intro h
    have h2 : Event.completeSignal ∈
        (runModel ⟨tt, nc, dz, cdir, ct, cf⟩).filter isOutcome :=
      List.mem_filter.2 ⟨h, rfl⟩
    rw [← hmain] at h2
    exact (List.mem_filter.1 h2).1

/- ## Claim C4: packaging progress bands -/

/-- Claim C4, counterexample: the compression stage's translation maps
the backend's 0% to 25, not 20 — the progress stream is translated into
the 25–100 band, so it is not translated into "exactly the 20–100
band". -/
theorem c4_band_counterexample :
    reportZipProgress 0 = 25 ∧ (25 : Nat) ≠ 20 := by
  decide

/-- Claim C4 (amended): the pre-compression stages report exactly 5
("Cleaning", only when cleaning is enabled), 10, 15 and 20 — inside the
claimed 0–5/5–10/10–15/15–20 bands — and every compression-stage
percentage lies in the 25–100 band (hence inside the claimed reserved
20–100 band), via `scaled = 25 + (percent * 75) / 100`. -/
theorem c4_progress_bands (clean : Bool) (zs : List Nat)
    (hz : ∀ p ∈ zs, p ≤ 100) :
    (∀ pr ∈ executeProgress clean zs,
        (pr.2 = "Packaging" → 25 ≤ pr.1 ∧ pr.1 ≤ 100)
          ∧ (pr.2 ≠ "Packaging" →
              pr ∈ [((5 : Nat), "Cleaning"), (10, "Processing Image"),
                    (15, "Creating Manifest"), (20, "Creating Supplement")]))
      ∧ reportZipProgress 100 = 100 := by
  refine ⟨?_, by decide⟩
  intro pr hpr
  unfold executeProgress at hpr
  rcases List.mem_append.1 hpr with h1 | h2
  · rcases List.mem_append.1 h1 with h0 | h3
    · cases clean
      · simp at h0
      · simp only [if_pos rfl] at h0
        rcases List.mem_singleton.1 h0 with rfl
        exact ⟨fun h => absurd h (by decide), fun _ => by decide⟩
    · rcases List.mem_cons.1 h3 with rfl | h3
      · exact ⟨fun h => absurd h (by decide), fun _ => by decide⟩
      · rcases List.mem_cons.1 h3 with rfl | h3
        · exact ⟨fun h => absurd h (by decide), fun _ => by decide⟩
        · rcases List.mem_cons.1 h3 with rfl | h3
          · exact ⟨fun h => absurd h (by decide), fun _ => by decide⟩
          · cases h3
  · rcases List.mem_map.1 h2 with ⟨p, hp, rfl⟩
    refine ⟨fun _ => ⟨Nat.le_add_right 25 _, ?_⟩, fun h => absurd rfl h⟩
    unfold reportZipProgress
    have h75 : p * 75 / 100 ≤ 75 := by
      have hm : p * 75 ≤ 7500 := by
        have := hz p hp
        omega
      have := Nat.div_le_div_right (c := 100) hm
      omega
    omega

/-- Witness for C4's amended theorem: the backend's 0% is reported as
25 (inside the band), and 100% as 100. -/
theorem c4_progress_bands_witness :
    (25 ≤ reportZipProgress 0 ∧ reportZipProgress 0 ≤ 100)
      ∧ reportZipProgress 100 = 100 :=
  ⟨((c4_progress_bands true [0] (by decide)).1
      (reportZipProgress 0, "Packaging") (by decide)).1 rfl,
   (c4_progress_bands true [0] (by decide)).2⟩

/- ## Claim C8: scanner candidates stay inside the scanned root -/

theorem findBaseAux_subset (daz : List String) :
    ∀ (l acc r : List String), findBaseAux daz acc l = some r →
      ∀ s ∈ r, s ∈ acc ∨ s ∈ l := by
  intro l
  induction l with
  | nil => intro acc r h; cases h
  | cons x xs ih =>
    intro acc r h s hs
    rw [findBaseAux] at h
    by_cases hx : daz.contains (lowerStr x) = true
    · rw [if_pos hx] at h
      cases h
      exact Or.inl hs
    · rw [if_neg hx] at h
      rcases ih (acc ++ [x]) r h s hs with h2 | h2
      · rcases List.mem_append.1 h2 with h3 | h3
        · exact Or.inl h3
        · exact Or.inr (List.mem_cons.2 (Or.inl (List.mem_singleton.1 h3)))
      · exact Or.inr (List.mem_cons_of_mem x h2)

/-- Claim C8: for every scanned tree whose entry names are real
directory-entry names (never `..`, `.` or empty — the hypothesis on the
file paths) and every recognized-folder set, every content-root
candidate the scanner returns contains no `..` segment, is fixed by
path normalization, and re-anchoring it under any well-formed root
resolves inside (or equal to) that root. -/
theorem c8_scan_candidates_inside (daz : List String) (f : FSForest)
    (hv : ∀ p ∈ filePathsF f, ∀ s ∈ p, validName s = true) :
    ∀ c ∈ (scanDirectory daz f).1,
      ".." ∉ c ∧ normPath c = c
        ∧ ∀ root, (∀ s ∈ root, validName s = true) →
            safeJoin root c = some (root ++ c) := by
  intro c hc
  have hc' : c ∈ (filePathsF f).filterMap fun p =>
      if archiveExtB (lastSeg p) then none
      else findBaseAux (daz.map lowerStr) [] p := hc
  rcases List.mem_filterMap.1 hc' with ⟨p, hp, hg⟩
  have hfb : findBaseAux (daz.map lowerStr) [] p = some c := by
    by_cases ha : archiveExtB (lastSeg p) = true
    · rw [if_pos ha] at hg; cases hg
    · rw [if_neg ha] at hg; exact hg
  have hsub : ∀ s ∈ c, s ∈ p := by
    intro s hs
    rcases findBaseAux_subset (daz.map lowerStr) p [] c hfb s hs with h | h
    · cases h
    · exact h
  have hval : ∀ s ∈ c, validName s = true :=
    fun s hs => hv p hp s (hsub s hs)
  refine ⟨?_, normPath_valid c hval, ?_⟩
  · intro hdd
    have hbad := hval ".." hdd
    simp [validName] at hbad
  · intro root hroot
    exact safeJoin_valid root c hroot hval

/-- Witness for C8 at a concrete forest `Product/Data/x.duf` with
recognized set `{data}`: the candidate `Product` has no `..`, is
normalization-fixed, and re-anchors inside the root `dest`. -/
theorem c8_scan_candidates_inside_witness :
    ".." ∉ (["Product"] : List String)
      ∧ normPath ["Product"] = ["Product"]
      ∧ safeJoin ["dest"] ["Product"] = some ["dest", "Product"] := by
  have h := c8_scan_candidates_inside ["data"] c8Forest (by decide)
    ["Product"] (by decide)
  exact ⟨h.1, h.2.1, h.2.2 ["dest"] (by decide)⟩

/- ## Claim C9: exact manifest for a two-file content directory -/

set_option maxRecDepth 10000 in
/-- Claim C9: over a content directory holding exactly
`Runtime/Support/a.jpg` and `Data/b.duf`, the manifest walk lists
`Data/b.duf` before `Runtime/Support/a.jpg`, and the written
`Manifest.dsx` text is exactly the `DAZInstallManifest VERSION="0.1"`
root with the `GlobalID` child carrying the spec GUID and two
`File TARGET="Content" ACTION="Install"` children with forward-slash
`Content/...` paths, two-space indentation, no XML declaration line,
and a terminating newline. -/
theorem c9_manifest_exact :
    manifestPaths c9Tree
        = [["Data", "b.duf"], ["Runtime", "Support", "a.jpg"]]
      ∧ prettify (createManifest "1a2b3c4d-5e6f-7a8b-9c0d-e1f2a3b4c5d6"
          c9Tree)
        = "<DAZInstallManifest VERSION=\"0.1\">\n  <GlobalID VALUE=\"1a2b3c4d-5e6f-7a8b-9c0d-e1f2a3b4c5d6\"/>\n  <File TARGET=\"Content\" ACTION=\"Install\" VALUE=\"Content/Data/b.duf\"/>\n  <File TARGET=\"Content\" ACTION=\"Install\" VALUE=\"Content/Runtime/Support/a.jpg\"/>\n</DAZInstallManifest>\n" := by
  constructor
  · decide
  · decide

end DIMCreator
